import Mathlib

/-!
A shallow embedding of the `miniflag` command-line flag library (flag.go)
together with proofs checking its specification.

Conventions of the embedding:
* Go strings are modelled as Lean `String` and indexed at character level;
  every byte the source inspects (`-`, `=`, backtick) is ASCII, so character
  positions and byte positions agree on those tests.
* Heap-allocated objects (backing arrays of slices, bound destination cells,
  `flag.FlagSet` structs, miniflag `FlagSet` structs) live in explicit heaps
  inside a global state record; a Go pointer is an index into the heap list.
* Functions that can panic return `Except`/`Option`, with the error value
  standing for the panic.
* The parts of the Go standard library `flag` package that the source calls
  (`FlagSet.Var`, `BoolVar`, `StringVar`, `Parse`, `Args`, `Lookup`,
  `strconv.ParseBool`) are modelled from their go1.18 sources, restricted to
  the `bool` and `string` destination types that the claims exercise.
-/

namespace Miniflag

/-- The `flagInfo` record of flag.go: descriptor metadata for one
definition call.  The Go zero value (all fields empty) is the placeholder
descriptor. -/
structure flagInfo where
  Longhand : String
  Shorthand : String
  UsageValue : String
  Usage : String
deriving DecidableEq, Inhabited

/-- Transcription of `extractUsageValue` (flag.go lines 259-273).  The Go
byte loop is modelled as a walk over the remaining characters while tracking
the absolute index `i` and the recorded start position `pos`; the Go slice
expression `s[pos:i]` is `(orig.drop pos).take (i - pos)`. -/
def extractLoop (orig : List Char) : List Char → Nat → Nat → List Char
  | [], _, _ => []
  | c :: rest, i, pos =>
    if c = '`' then
      if pos = 0 then extractLoop orig rest (i + 1) (i + 1)
      else (orig.drop pos).take (i - pos)
    else extractLoop orig rest (i + 1) pos

/-- `extractUsageValue` from flag.go: scan for the first two backticks and
return the text between them. -/
def extractUsageValue (s : String) : String :=
  ⟨extractLoop s.data s.data 0 0⟩

/-- The specification wording for hint extraction, on character lists: the
text strictly between the first and the second backtick, empty when fewer
than two backticks exist. -/
def hintSpecList (l : List Char) : List Char :=
  match l.dropWhile (fun c => c ≠ '`') with
  | [] => []
  | _ :: rest =>
    if rest.any (fun c => c = '`') then rest.takeWhile (fun c => c ≠ '`') else []

/-- The usage-value hint as the specification describes it. -/
def hintSpec (s : String) : String :=
  ⟨hintSpecList s.data⟩

lemma takeWhile_take_eq (p : Char → Bool) (l : List Char) :
    l.take (l.takeWhile p).length = l.takeWhile p := by
  induction l with
  | nil => simp
  | cons c rest ih =>
    by_cases h : p c
    · simp [List.takeWhile_cons, h, ih]
    · simp [List.takeWhile_cons, h]

/-- Behaviour of the scan once the first backtick has been recorded
(`pos ≠ 0`): it returns the recorded slice extended to the next backtick,
or empty when no further backtick exists. -/
lemma extractLoop_after (orig : List Char) :
    ∀ (rest : List Char) (i pos : Nat), pos ≠ 0 → orig.drop i = rest → pos ≤ i →
    extractLoop orig rest i pos =
      if rest.any (fun c => c = '`')
      then (orig.drop pos).take ((i - pos) + (rest.takeWhile (fun c => c ≠ '`')).length)
      else [] := by
  intro rest
  induction rest with
  | nil => intro i pos _ _ _; simp [extractLoop]
  | cons c rest ih =>
    intro i pos hpos hdrop hle
    by_cases hc : c = '`'
    · subst hc
      simp only [extractLoop, if_pos rfl, if_neg hpos]
      have hany : (('`' : Char) :: rest).any (fun c => c = '`') = true := by simp
      rw [if_pos hany]
      simp [List.takeWhile_cons]
    · have hdrop' : orig.drop (i + 1) = rest := by
        have : orig.drop (i + 1) = (orig.drop i).drop 1 := by
          rw [List.drop_drop]
        rw [this, hdrop]
        rfl
      have step : extractLoop orig (c :: rest) i pos = extractLoop orig rest (i + 1) pos := by
        simp [extractLoop, hc]
      rw [step, ih (i + 1) pos hpos hdrop' (Nat.le_succ_of_le hle)]
      have hanyc : ((c :: rest).any (fun x => x = '`')) = rest.any (fun x => x = '`') := by
        simp [hc]
      by_cases hany : rest.any (fun x => x = '`')
      · rw [if_pos hany, if_pos (by rw [hanyc]; exact hany)]
        have htw : ((c :: rest).takeWhile (fun x => x ≠ '`')).length
            = (rest.takeWhile (fun x => x ≠ '`')).length + 1 := by
          simp [List.takeWhile_cons, hc]
        rw [htw]
        congr 1
        omega
      · rw [if_neg hany, if_neg (by rw [hanyc]; exact hany)]

/-- Behaviour of the scan before any backtick has been seen (`pos = 0`). -/
lemma extractLoop_start (orig : List Char) :
    ∀ (rest : List Char) (i : Nat), orig.drop i = rest →
    extractLoop orig rest i 0 = hintSpecList rest := by
  intro rest
  induction rest with
  | nil => intro i _; simp [extractLoop, hintSpecList]
  | cons c rest ih =>
    intro i hdrop
    have hdrop' : orig.drop (i + 1) = rest := by
      have : orig.drop (i + 1) = (orig.drop i).drop 1 := by
        rw [List.drop_drop]
      rw [this, hdrop]
      rfl
    by_cases hc : c = '`'
    · subst hc
      have step : extractLoop orig ('`' :: rest) i 0 = extractLoop orig rest (i + 1) (i + 1) := by
        simp [extractLoop]
      rw [step, extractLoop_after orig rest (i + 1) (i + 1) (Nat.succ_ne_zero i) hdrop'
        (Nat.le_refl _)]
      have hspec : hintSpecList ('`' :: rest)
          = if rest.any (fun x => x = '`') then rest.takeWhile (fun x => x ≠ '`') else [] := by
        simp [hintSpecList, List.dropWhile_cons]
      rw [hspec]
      by_cases hany : rest.any (fun x => x = '`')
      · rw [if_pos hany, if_pos hany, hdrop']
        simp only [Nat.sub_self, Nat.zero_add]
        exact takeWhile_take_eq _ rest
      · rw [if_neg hany, if_neg hany]
    · have step : extractLoop orig (c :: rest) i 0 = extractLoop orig rest (i + 1) 0 := by
        simp [extractLoop, hc]
      have hspec : hintSpecList (c :: rest) = hintSpecList rest := by
        simp [hintSpecList, List.dropWhile_cons, hc]
      rw [step, hspec, ih (i + 1) hdrop']

/-- Values a bound destination can hold.  The claims exercise the `bool`
and `string` branches of the `defineFlag` type switch, so the embedding
restricts destinations to these two kinds. -/
inductive FlagValue where
  | boolV (b : Bool)
  | strV (s : String)
deriving DecidableEq

/-- Whether the dynamic type of the destination is boolean
(Go: `reflect.TypeOf(f.Value).Elem().Kind() == reflect.Bool`, and the
`boolFlag` special case inside std `parseOne`). -/
def FlagValue.isBool : FlagValue → Bool
  | .boolV _ => true
  | .strV _ => false

/-- A Go slice header over a `[]flagInfo` backing array: array id (index
into the array heap), length and capacity. -/
structure GoSlice where
  arr : Nat
  len : Nat
  cap : Nat
deriving DecidableEq

/-- Model of Go `flag.ErrorHandling`. -/
inductive ErrorHandling where
  | ContinueOnError
  | ExitOnError
  | PanicOnError
deriving DecidableEq

/-- One entry of the `formal` map of a std `flag.FlagSet`: the registered
name together with the address of the destination cell its `Value` wraps. -/
structure StdFlag where
  name : String
  cell : Nat
deriving DecidableEq

/-- Model of a Go std `flag.FlagSet`: its name, error handling mode, the
registered flags, and the leftover arguments `f.args` after parsing. -/
structure StdFlagSet where
  name : String
  errorHandling : ErrorHandling
  formal : List StdFlag
  argsLeft : List String
deriving DecidableEq

/-- A miniflag `FlagSet` value: the embedded `*flag.FlagSet` pointer and
the `flags` descriptor slice header. -/
structure MFlagSet where
  std : Nat
  flags : GoSlice
deriving DecidableEq

/-- Dereference fallback for an invalid miniflag `FlagSet` pointer. -/
def mZero : MFlagSet := ⟨0, ⟨0, 0, 0⟩⟩

/-- Dereference fallback for an invalid std `flag.FlagSet` pointer. -/
def sZero : StdFlagSet := ⟨"", .ContinueOnError, [], []⟩

/-- The package-level state of the embedding: the heap of descriptor
backing arrays, the heap of bound destination cells, the heap of std
`flag.FlagSet` structs, the heap of miniflag `FlagSet` structs, the package
variable `flagSets` (a map storing `FlagSet` struct values), and the
package variable `flagInfoSlice`. -/
structure GState where
  arrays : List (List flagInfo)
  cells : List FlagValue
  stdSets : List StdFlagSet
  miniSets : List MFlagSet
  flagSets : List (String × MFlagSet)
  flagInfoSlice : GoSlice
deriving DecidableEq

/-- Go map insertion (`flagSets[name] = fs`): overwrite an existing key or
add a new one. -/
def mapInsert (m : List (String × MFlagSet)) (k : String) (v : MFlagSet) :
    List (String × MFlagSet) :=
  match m with
  | [] => [(k, v)]
  | (k', v') :: rest => if k' = k then (k, v) :: rest else (k', v') :: mapInsert rest k v

/-- Go map lookup (`flagSets[args[0]]`). -/
def mapLookup (m : List (String × MFlagSet)) (k : String) : Option MFlagSet :=
  match m with
  | [] => none
  | (k', v') :: rest => if k' = k then some v' else mapLookup rest k

/-- Lookup in the `formal` map of a std flag set (`fs.Lookup(name)` and the
`f.formal[name]` accesses inside std flag). -/
def formalLookup (fl : List StdFlag) (nm : String) : Option StdFlag :=
  match fl with
  | [] => none
  | f :: rest => if f.name = nm then some f else formalLookup rest nm

/-- The package state right after the var block of flag.go initializes
`flagSets` (an empty map) and `flagInfoSlice` (an empty slice of capacity
32 over a fresh zero-filled backing array).  `CommandLine`, which Go
creates next as `NewFlagSet(os.Args[0], ExitOnError)`, is built by applying
`NewFlagSet` to this state with the externally supplied program name. -/
def initState : GState :=
  { arrays := [List.replicate 32 default]
    cells := []
    stdSets := []
    miniSets := []
    flagSets := []
    flagInfoSlice := ⟨0, 0, 32⟩ }

/-- Go `append` on a `[]flagInfo` slice: while below capacity the element
is written in place into the shared backing array; otherwise a new backing
array of doubled capacity is allocated and the contents are copied. -/
def goAppend (g : GState) (s : GoSlice) (x : flagInfo) : GState × GoSlice :=
  if s.len < s.cap then
    let a := g.arrays.getD s.arr []
    ({ g with arrays := g.arrays.set s.arr (a.set s.len x) }, ⟨s.arr, s.len + 1, s.cap⟩)
  else
    let newCap := if s.cap = 0 then 1 else 2 * s.cap
    let a := g.arrays.getD s.arr []
    let content := a.take s.len ++ [x]
    let newArr := content ++ List.replicate (newCap - content.length) default
    ({ g with arrays := g.arrays ++ [newArr] }, ⟨g.arrays.length, s.len + 1, newCap⟩)

/-- The list of descriptors a slice header denotes in a given state. -/
def sliceView (g : GState) (s : GoSlice) : List flagInfo :=
  (g.arrays.getD s.arr []).take s.len

/-- `NewFlagSet` (flag.go lines 117-121): allocate the underlying std flag
set, build the miniflag `FlagSet` value whose `flags` field is a copy of
the package `flagInfoSlice` header (sharing its backing array), record a
copy of the struct in the `flagSets` map, and return a pointer to the
escaped struct. -/
def NewFlagSet (g : GState) (name : String) (eh : ErrorHandling) : GState × Nat :=
  let p := g.stdSets.length
  let fs : MFlagSet := ⟨p, g.flagInfoSlice⟩
  let q := g.miniSets.length
  ({ g with stdSets := g.stdSets ++ [⟨name, eh, [], []⟩]
            flagSets := mapInsert g.flagSets name fs
            miniSets := g.miniSets ++ [fs] }, q)

/-- `defineUsage` (flag.go lines 275-290), applied to the `flags` slice of
the miniflag flag set at pointer `q`: a single-character name is turned
into a shorthand with an empty long name, then one `flagInfo` is appended
to the descriptor slice. -/
def defineUsage (g : GState) (q : Nat) (name shorthand usage : String) : GState :=
  let sh := if name.length = 1 then name else shorthand
  let nm := if name.length = 1 then "" else name
  let fs := g.miniSets.getD q mZero
  let fi : flagInfo := ⟨nm, sh, extractUsageValue usage, usage⟩
  let r := goAppend g fs.flags fi
  { r.1 with miniSets := r.1.miniSets.set q ⟨fs.std, r.2⟩ }

/-- The panic raised by Go std `flag.FlagSet.Var` on flag redefinition
("flag redefined"); modelled as the error value of `Except`. -/
inductive GoPanic where
  | flagRedefined (fsName flagName : String)
deriving DecidableEq

/-- Go std `flag.FlagSet.Var` (go1.18): panics when the name is already
present in `formal`, otherwise records the name with the address of the
destination cell the `Value` wraps. -/
def stdVar (g : GState) (p : Nat) (cell : Nat) (nm : String) : Except GoPanic GState :=
  let fs := g.stdSets.getD p sZero
  match formalLookup fs.formal nm with
  | some _ => .error (.flagRedefined fs.name nm)
  | none =>
      .ok { g with stdSets := g.stdSets.set p { fs with formal := fs.formal ++ [⟨nm, cell⟩] } }

/-- Write a destination cell (`*p = value` inside std `newBoolValue` /
`newStringValue`). -/
def setCell (g : GState) (c : Nat) (v : FlagValue) : GState :=
  { g with cells := g.cells.set c v }

/-- The shared body of the miniflag `*Var` helpers (flag.go lines
292-362 are eight textually identical functions differing only in the
destination type): the parameter `value` is ONE freshly allocated local
cell; std `XVar` seeds it and registers `name` wrapping its address, and
when a shorthand exists the SAME address is registered again under the
shorthand.  Returns the cell address (`&value`).  A `Var` panic
propagates. -/
def typedVar (g : GState) (q : Nat) (name shorthand : String) (value : FlagValue) :
    Except GoPanic (GState × Nat) :=
  let c := g.cells.length
  let g1 := { g with cells := g.cells ++ [value] }
  let p := (g1.miniSets.getD q mZero).std
  match stdVar (setCell g1 c value) p c name with
  | .error e => .error e
  | .ok g2 =>
    if shorthand = "" then .ok (g2, c)
    else
      match stdVar (setCell g2 c value) p c shorthand with
      | .error e => .error e
      | .ok g3 => .ok (g3, c)

/-- miniflag `boolVar` (flag.go lines 292-298). -/
def boolVar (g : GState) (q : Nat) (name shorthand : String) (value : Bool) :
    Except GoPanic (GState × Nat) :=
  typedVar g q name shorthand (.boolV value)

/-- miniflag `stringVar` (flag.go lines 300-306). -/
def stringVar (g : GState) (q : Nat) (name shorthand : String) (value : String) :
    Except GoPanic (GState × Nat) :=
  typedVar g q name shorthand (.strV value)

/-- miniflag `defineFlag` (flag.go lines 176-204), restricted to the
`bool` and `string` cases of the type switch: a shorthand equal to the
name is dropped, the descriptor is appended, then the destinations are
registered. -/
def defineFlag (g : GState) (q : Nat) (name shorthand : String) (value : FlagValue)
    (usage : String) : Except GoPanic (GState × Nat) :=
  let sh := if name = shorthand then "" else shorthand
  let g1 := defineUsage g q name sh usage
  match value with
  | .boolV b => boolVar g1 q name sh b
  | .strV s => stringVar g1 q name sh s

/-- The destination cell that the flag set at pointer `q` routes an
identifier to (`fs.Lookup` composed with taking the wrapped address). -/
def lookupDest (g : GState) (q : Nat) (nm : String) : Option Nat :=
  (formalLookup (g.stdSets.getD (g.miniSets.getD q mZero).std sZero).formal nm).map
    (fun f => f.cell)

/-- Go `strconv.ParseBool`. -/
def parseBool (s : String) : Option Bool :=
  if s = "1" ∨ s = "t" ∨ s = "T" ∨ s = "true" ∨ s = "TRUE" ∨ s = "True" then some true
  else if s = "0" ∨ s = "f" ∨ s = "F" ∨ s = "false" ∨ s = "FALSE" ∨ s = "False" then some false
  else none

/-- Parse-time failures of std `flag.FlagSet.parseOne`. -/
inductive ParseErr where
  | malformedFlag (tok : String)
  | help
  | unknownFlag (nm : String)
  | invalidBoolValue (v nm : String)
  | needsArg (nm : String)
deriving DecidableEq

/-- How the head-token analysis of std `parseOne` classifies one token. -/
inductive TokClass where
  | notFlag
  | terminator
  | badToken
  | marker (nm value : String) (hasValue : Bool)
deriving DecidableEq

/-- The head-token analysis of std `parseOne` (go1.18): a token shorter
than two characters or not starting with a dash stops parsing; `--` alone
terminates flags; after stripping one or two dashes, a leading dash or
equals sign is a syntax error; otherwise the identifier is the text before
the first `=` and the inline value (when `=` occurs) the text after it. -/
def classifyToken (s : String) : TokClass :=
  let cs := s.data
  if cs.length < 2 ∨ cs.getD 0 ' ' ≠ '-' then .notFlag
  else if cs.getD 1 ' ' = '-' ∧ cs.length = 2 then .terminator
  else
    let numMinuses := if cs.getD 1 ' ' = '-' then 2 else 1
    let nameCs := cs.drop numMinuses
    if nameCs.length = 0 ∨ nameCs.getD 0 ' ' = '-' ∨ nameCs.getD 0 ' ' = '=' then .badToken
    else
      .marker ⟨nameCs.takeWhile (fun ch => ch ≠ '=')⟩
        ⟨(nameCs.dropWhile (fun ch => ch ≠ '=')).drop 1⟩
        (nameCs.any (fun ch => ch = '='))

/-- The identifier a token would be parsed under, when it is a flag
marker. -/
def tokenName (s : String) : Option String :=
  match classifyToken s with
  | .marker nm _ _ => some nm
  | _ => none

/-- The mutable state std `parseOne` works on: the destination cells and
the remaining arguments `f.args`. -/
structure PState where
  cells : List FlagValue
  args : List String
deriving DecidableEq

/-- Result of one `parseOne` step: parsing stopped normally, failed, or
consumed one flag occurrence. -/
inductive StepResult where
  | stop
  | fail (e : ParseErr)
  | seen
deriving DecidableEq

/-- Transcription of std `flag.FlagSet.parseOne` (go1.18), restricted to
boolean and string destinations.  Note which failure paths consume the
marker token: a syntax error does not, every later failure does. -/
def parseOne (formal : List StdFlag) (st : PState) : PState × StepResult :=
  match st.args with
  | [] => (st, .stop)
  | s :: rest =>
    match classifyToken s with
    | .notFlag => (st, .stop)
    | .terminator => ({ st with args := rest }, .stop)
    | .badToken => (st, .fail (.malformedFlag s))
    | .marker nm value hasV =>
      let st1 : PState := { st with args := rest }
      match formalLookup formal nm with
      | none =>
          if nm = "help" ∨ nm = "h" then (st1, .fail .help)
          else (st1, .fail (.unknownFlag nm))
      | some f =>
          if (st1.cells.getD f.cell (.strV "")).isBool then
            if hasV then
              match parseBool value with
              | some b => ({ st1 with cells := st1.cells.set f.cell (.boolV b) }, .seen)
              | none => (st1, .fail (.invalidBoolValue value nm))
            else ({ st1 with cells := st1.cells.set f.cell (.boolV true) }, .seen)
          else
            if hasV then ({ st1 with cells := st1.cells.set f.cell (.strV value) }, .seen)
            else
              match rest with
              | v2 :: rest2 => (⟨st1.cells.set f.cell (.strV v2), rest2⟩, .seen)
              | [] => (st1, .fail (.needsArg nm))

lemma parseOne_seen_length_aux (formal : List StdFlag) (cells : List FlagValue)
    (args : List String) (st' : PState)
    (h : parseOne formal ⟨cells, args⟩ = (st', .seen)) : st'.args.length < args.length := by
  rcases args with _ | ⟨s, rest⟩
  · simp [parseOne] at h
  · simp only [parseOne] at h
    rcases hcl : classifyToken s with _ | _ | _ | ⟨nm, value, hasV⟩ <;> simp only [hcl] at h
    · simp at h
    · simp at h
    · simp at h
    · rcases hlk : formalLookup formal nm with _ | f <;> simp only [hlk] at h
      · split at h <;> simp at h
      · split at h
        · split at h
          · rcases hpb : parseBool value with _ | b <;> simp only [hpb] at h
            · simp at h
            · have h1 := congrArg Prod.fst h
              simp only [] at h1
              rw [← h1]
              simp
          · have h1 := congrArg Prod.fst h
            simp only [] at h1
            rw [← h1]
            simp
        · split at h
          · have h1 := congrArg Prod.fst h
            simp only [] at h1
            rw [← h1]
            simp
          · rcases rest with _ | ⟨v2, rest2⟩
            · simp at h
            · simp only [] at h
              have h1 := congrArg Prod.fst h
              simp only [] at h1
              rw [← h1]
              simp only [List.length_cons]
              omega

lemma parseOne_seen_length (formal : List StdFlag) (st st' : PState)
    (h : parseOne formal st = (st', .seen)) : st'.args.length < st.args.length :=
  parseOne_seen_length_aux formal st.cells st.args st' h

/-- What std `Parse` reports after the loop: success, an error returned to
the caller (`ContinueOnError`), a process exit (`ExitOnError`, status 0
for help and 2 otherwise), or a panic (`PanicOnError`). -/
inductive ParseOutcome where
  | okDone
  | errReturned (e : ParseErr)
  | exited (code : Nat)
  | panicked (e : ParseErr)
deriving DecidableEq

/-- The body of the `for` loop of std `flag.FlagSet.Parse` (go1.18),
written with structural fuel so that the kernel can evaluate it.  Each
`seen` iteration consumes at least one argument (`parseOne_seen_length`),
so fuel `st.args.length + 1` realizes the unbounded Go loop; the theorem
`parseLoop_eq` below proves the Go loop equation for the fueled version. -/
def parseLoopF (formal : List StdFlag) (eh : ErrorHandling) :
    Nat → PState → PState × ParseOutcome
  | 0, st => (st, .okDone)
  | fuel + 1, st =>
    match parseOne formal st with
    | (st', .stop) => (st', .okDone)
    | (st', .fail e) =>
      match eh with
      | .ContinueOnError => (st', .errReturned e)
      | .ExitOnError => (st', .exited (if e = .help then 0 else 2))
      | .PanicOnError => (st', .panicked e)
    | (st', .seen) => parseLoopF formal eh fuel st'

/-- The `for` loop of std `flag.FlagSet.Parse`, with adequate fuel. -/
def parseLoop (formal : List StdFlag) (eh : ErrorHandling) (st : PState) :
    PState × ParseOutcome :=
  parseLoopF formal eh (st.args.length + 1) st

lemma parseLoopF_irrel (formal : List StdFlag) (eh : ErrorHandling) :
    ∀ f1 f2 st, st.args.length < f1 → st.args.length < f2 →
    parseLoopF formal eh f1 st = parseLoopF formal eh f2 st := by
  intro f1
  induction f1 using Nat.strong_induction_on with
  | _ f1 ih =>
    intro f2 st h1 h2
    obtain ⟨n, rfl⟩ : ∃ n, f1 = n + 1 := ⟨f1 - 1, by omega⟩
    obtain ⟨m, rfl⟩ : ∃ m, f2 = m + 1 := ⟨f2 - 1, by omega⟩
    simp only [parseLoopF]
    rcases hp : parseOne formal st with ⟨st', r⟩
    cases r with
    | stop => rfl
    | fail e => rfl
    | seen =>
      have hlt := parseOne_seen_length formal st st' hp
      exact ih n (by omega) m st' (by omega) (by omega)

/-- The fueled loop satisfies the recurrence of the Go `for` loop. -/
theorem parseLoop_eq (formal : List StdFlag) (eh : ErrorHandling) (st : PState) :
    parseLoop formal eh st =
      match parseOne formal st with
      | (st', .stop) => (st', .okDone)
      | (st', .fail e) =>
        match eh with
        | .ContinueOnError => (st', .errReturned e)
        | .ExitOnError => (st', .exited (if e = .help then 0 else 2))
        | .PanicOnError => (st', .panicked e)
      | (st', .seen) => parseLoop formal eh st' := by
  unfold parseLoop
  simp only [parseLoopF]
  rcases hp : parseOne formal st with ⟨st', r⟩
  cases r with
  | stop => rfl
  | fail e => rfl
  | seen =>
    have hlt := parseOne_seen_length formal st st' hp
    exact parseLoopF_irrel formal eh st.args.length (st'.args.length + 1) st'
      (by omega) (by omega)

/-- Go std `flag.FlagSet.Parse`: install the arguments as `f.args`, run the
loop, and store the final cells and leftover arguments back into the
global state. -/
def stdParse (g : GState) (p : Nat) (arguments : List String) : GState × ParseOutcome :=
  let fs := g.stdSets.getD p sZero
  let r := parseLoop fs.formal fs.errorHandling ⟨g.cells, arguments⟩
  ({ g with cells := r.1.cells
            stdSets := g.stdSets.set p { fs with argsLeft := r.1.args } }, r.2)

/-- miniflag `parse` (flag.go lines 140-148): when more than one token is
present and the first token names a registered flag set, delegate to that
set with the remaining tokens; otherwise parse everything with the given
set. -/
def parse (g : GState) (q : Nat) (args : List String) : GState × ParseOutcome :=
  if 1 < args.length then
    match mapLookup g.flagSets (args.getD 0 "") with
    | some f => stdParse g f.std (args.drop 1)
    | none => stdParse g (g.miniSets.getD q mZero).std args
  else stdParse g (g.miniSets.getD q mZero).std args

/-- The loop body of miniflag `args` (flag.go lines 150-174) over the
leftover tokens, carrying the running index `i`; `none` models the runtime
panic raised by the unchecked index expression `args[i-1][0]` when the
previous token is the empty string. -/
def argsLoop (formal : List StdFlag) (cells : List FlagValue) (toks : List String) :
    Nat → List String → Option (List String)
  | _, [] => some []
  | i, arg :: rest =>
    if arg = "" then (argsLoop formal cells toks (i + 1) rest).map (fun t => arg :: t)
    else if arg.data.getD 0 ' ' = '-' then argsLoop formal cells toks (i + 1) rest
    else if 0 < i then
      let prev := toks.getD (i - 1) ""
      if prev = "" then none
      else if prev.data.getD 0 ' ' = '-' then
        match formalLookup formal ⟨prev.data.filter (fun c => c ≠ '-')⟩ with
        | some f =>
            if (cells.getD f.cell (.strV "")).isBool then
              (argsLoop formal cells toks (i + 1) rest).map (fun t => arg :: t)
            else argsLoop formal cells toks (i + 1) rest
        | none => (argsLoop formal cells toks (i + 1) rest).map (fun t => arg :: t)
      else (argsLoop formal cells toks (i + 1) rest).map (fun t => arg :: t)
    else (argsLoop formal cells toks (i + 1) rest).map (fun t => arg :: t)

/-- miniflag `args`: scan the leftover tokens of the flag set at pointer
`q` and return the positional arguments; `none` is the panic. -/
def argsFn (g : GState) (q : Nat) : Option (List String) :=
  let fs := g.stdSets.getD (g.miniSets.getD q mZero).std sZero
  argsLoop fs.formal g.cells fs.argsLeft 0 fs.argsLeft

/-- A run of `n` spaces (what Go `fmt` produces for `"%*s"` with an empty
string operand and width `n`). -/
def spaces (n : Nat) : String :=
  ⟨List.replicate n ' '⟩

/-- Go `fmt` `%*s` padding: right-justify to width `w`, or left-justify
when the computed width is negative.  Go counts bytes; the strings the
renderer pads are compared at character level, which agrees on ASCII. -/
def goPad (w : Int) (s : String) : String :=
  if 0 ≤ w then ⟨List.replicate (w.toNat - s.length) ' '⟩ ++ s
  else s ++ ⟨List.replicate ((-w).toNat - s.length) ' '⟩

/-- The compound identifier token built inside the loop of `usageFn`
(flag.go lines 213-231): `-short`, then ` --long` when both are present. -/
def compoundOf (f : flagInfo) : String :=
  (if f.Shorthand ≠ "" then "-" ++ f.Shorthand else "")
    ++ (if f.Longhand ≠ "" then (if f.Shorthand ≠ "" then " " else "") ++ "--" ++ f.Longhand
        else "")

/-- The bracketed synopsis group one descriptor contributes (flag.go lines
233-237), including its leading space. -/
def groupOf (f : flagInfo) : String :=
  if f.UsageValue ≠ "" then " [" ++ compoundOf f ++ "=" ++ f.UsageValue ++ "]"
  else " [" ++ compoundOf f ++ "]"

/-- The synopsis-building loop of `usageFn` (the `s` builder, flag.go lines
213-241): descriptors with both identifiers empty are skipped; after a
non-skipped entry the line wraps when `(i+1)%4 == 0`, where `i` is the
index over ALL descriptors. -/
def synopsisLoop (p : Nat) : List flagInfo → Nat → String
  | [], _ => ""
  | f :: rest, i =>
    if f.Shorthand = "" ∧ f.Longhand = "" then synopsisLoop p rest (i + 1)
    else
      groupOf f ++ (if (i + 1) % 4 = 0 then "\n" ++ spaces p else "")
        ++ synopsisLoop p rest (i + 1)

/-- The synopsis line(s) of `usageFn` for a registry named `name` with
descriptor list `flags`. -/
def usageSynopsis (name : String) (flags : List flagInfo) : String :=
  "usage: " ++ name ++ synopsisLoop ("usage: " ++ name).length flags 0

/-- One line of the description block of `usageFn` (flag.go lines 243-250). -/
def descrLine (f : flagInfo) : String :=
  goPad (Int.ofNat (compoundOf f).length + 4) (compoundOf f)
    ++ goPad (Int.ofNat f.Usage.length - Int.ofNat (compoundOf f).length + 16) f.Usage
    ++ "\n"

/-- The description-block builder of `usageFn` (the `u` builder). -/
def usageDescr : List flagInfo → String
  | [] => ""
  | f :: rest =>
    if f.Shorthand = "" ∧ f.Longhand = "" then usageDescr rest
    else descrLine f ++ usageDescr rest

/-- `usageFn` (flag.go lines 206-254): the full text written to the output
sink, `s + "\n" + u`. -/
def usageFn (g : GState) (q : Nat) : String :=
  let fs := g.miniSets.getD q mZero
  let name := (g.stdSets.getD fs.std sZero).name
  usageSynopsis name (sliceView g fs.flags) ++ "\n" ++ usageDescr (sliceView g fs.flags)

/-- The synopsis as claim C9 words it: the wrap fires after every 4th
EMITTED bracketed group, i.e. the counter `k` advances only on non-skipped
descriptors. -/
def synopsisClaimLoop (p : Nat) : List flagInfo → Nat → String
  | [], _ => ""
  | f :: rest, k =>
    if f.Shorthand = "" ∧ f.Longhand = "" then synopsisClaimLoop p rest k
    else
      groupOf f ++ (if (k + 1) % 4 = 0 then "\n" ++ spaces p else "")
        ++ synopsisClaimLoop p rest (k + 1)

/-- The synopsis that claim C9 describes. -/
def usageSynopsisClaim (name : String) (flags : List flagInfo) : String :=
  "usage: " ++ name ++ synopsisClaimLoop ("usage: " ++ name).length flags 0

/-- What one position of the descriptor list contributes to the synopsis
under the amended reading of C9: nothing for a placeholder, otherwise its
group followed by a wrap exactly when its zero-based position `i` in the
FULL descriptor list (placeholders included) satisfies `(i+1) % 4 = 0`. -/
def emitAt (p : Nat) (pr : Nat × flagInfo) : String :=
  if pr.2.Shorthand = "" ∧ pr.2.Longhand = "" then ""
  else groupOf pr.2 ++ (if (pr.1 + 1) % 4 = 0 then "\n" ++ spaces p else "")

/-- The amended wording of C9: concatenate, over the position-indexed
descriptor list, the contribution of each position. -/
def usageSynopsisAmended (name : String) (flags : List flagInfo) : String :=
  "usage: " ++ name ++
    (flags.enum.map (emitAt ("usage: " ++ name).length)).foldr (fun a b => a ++ b) ""

/-- Unwrap a definition result that the scenario knows succeeds. -/
def exOk (r : Except GoPanic (GState × Nat)) : GState × Nat :=
  match r with
  | .ok pr => pr
  | .error _ => (initState, 0)

/-- C4 scenario: a fresh registry with a boolean flag `bool` (shorthand
`b`) and a string flag `string` (shorthand `s`), mirroring TestArgs. -/
def gT0 : GState × Nat := NewFlagSet initState "test" .ContinueOnError

def gT1 : GState × Nat := exOk (defineFlag gT0.1 gT0.2 "bool" "b" (.boolV false) "bool flag")

def gT2 : GState × Nat :=
  exOk (defineFlag gT1.1 gT0.2 "string" "s" (.strV "") "string flag")

def gT3 : GState × ParseOutcome :=
  parse gT2.1 gT0.2 ["arg0", "--bool", "arg1", "-s", "string", "arg2"]

/-- C3 scenario: a fresh registry parsing `["", "x"]`; std parsing stops at
the empty token, so the leftover list starts with an empty string followed
by a non-flag token. -/
def gU0 : GState × Nat := NewFlagSet initState "top" .ContinueOnError

def gU1 : GState × ParseOutcome := parse gU0.1 gU0.2 ["", "x"]

/-- C2 scenario: two registries; `one` defines `alpha`, then `two` defines
`beta`. -/
def gV1 : GState × Nat := NewFlagSet initState "one" .ContinueOnError

def gV2 : GState × Nat := NewFlagSet gV1.1 "two" .ContinueOnError

def gV3 : GState × Nat := exOk (defineFlag gV2.1 gV1.2 "alpha" "" (.strV "") "")

def gV4 : GState × Nat := exOk (defineFlag gV3.1 gV2.2 "beta" "" (.strV "") "")

/-- The descriptor list registry `one` sees in a given state. -/
def fsOneFlags (g : GState) : List flagInfo :=
  sliceView g (g.miniSets.getD 0 mZero).flags

/-- C1 scenario: one registry, a boolean flag `verbose` with shorthand
`v`, then a parse that assigns through the shorthand. -/
def gW0 : GState × Nat := NewFlagSet initState "w" .ContinueOnError

def gW1 : GState × Nat :=
  exOk (defineFlag gW0.1 gW0.2 "verbose" "v" (.boolV false) "verbose flag")

def gW2 : GState × ParseOutcome := parse gW1.1 gW0.2 ["-v"]

/-- C9 counterexample input: a placeholder descriptor followed by three
shorthand-only descriptors. -/
def flagsC9 : List flagInfo :=
  [default, ⟨"", "a", "", ""⟩, ⟨"", "b", "", ""⟩, ⟨"", "c", "", ""⟩]

/-- `C1` counterexample: with flag `verbose`/`v` (default `false`), both
identifiers resolve to the SAME destination cell, and after parsing
`["-v"]` a read through the destination of the long name yields `true`, not the
default — refuting the claimed independent storage. -/
theorem sharedCell_counterexample :
    lookupDest gW2.1 gW0.2 "verbose" = some 0 ∧ lookupDest gW2.1 gW0.2 "v" = some 0 ∧
      gW2.1.cells.getD 0 (.strV "") = .boolV true := by
  decide

/-- `C2` (code_bug evaluation): registry `one` holds descriptor `alpha`
after its own definition, but after registry `two` defines `beta` the SAME
position in `one`'s descriptor view reads `beta` — the shared backing
array of `flagInfoSlice` lets one registry overwrite another's
descriptors. -/
theorem descriptorOverwrite_bug :
    fsOneFlags gV3.1 = [⟨"alpha", "", "", ""⟩] ∧
      fsOneFlags gV4.1 = [⟨"beta", "", "", ""⟩] := by
  decide

/-- `C3` (code_bug evaluation): parsing `["", "x"]` succeeds and leaves
the leftover tokens `["", "x"]`, on which `args` panics (models the Go index
out of range on `args[i-1][0]`) instead of returning the empty string as a
positional argument. -/
theorem argsPanic_bug :
    gU1.2 = .okDone ∧ argsFn gU1.1 gU0.2 = none := by
  decide

/-- `C4`: with boolean `bool` and string-with-shorthand `s` registered,
parsing `["arg0", "--bool", "arg1", "-s", "string", "arg2"]` succeeds and
the positional extraction yields exactly `["arg0", "arg1", "arg2"]`. -/
theorem positional_extraction_example :
    gT3.2 = .okDone ∧ argsFn gT3.1 gT0.2 = some ["arg0", "arg1", "arg2"] := by
  decide

/-- `C9` counterexample: on a descriptor list with a leading placeholder,
the rendered synopsis differs from the after-every-4th-emitted-group
rendering of the claim (the source wraps after the 3rd emitted group here). -/
theorem synopsisWrap_counterexample :
    usageSynopsis "t" flagsC9 ≠ usageSynopsisClaim "t" flagsC9 := by
  decide

/-- `C10`: for every usage string, the extracted usage-value hint equals
the substring strictly between the first and second backtick, and is empty
when fewer than two backticks exist (the latter is what `hintSpec` returns
in that case). -/
theorem extractUsageValue_eq_hintSpec (s : String) :
    extractUsageValue s = hintSpec s := by
  unfold extractUsageValue hintSpec
  exact congrArg String.mk (extractLoop_start s.data s.data 0 (by simp))

lemma str_empty_append (s : String) : "" ++ s = s := by
  obtain ⟨d⟩ := s
  rfl

lemma synopsisLoop_enumFrom (p : Nat) :
    ∀ (flags : List flagInfo) (i : Nat),
    synopsisLoop p flags i
      = ((List.enumFrom i flags).map (emitAt p)).foldr (fun a b => a ++ b) "" := by
  intro flags
  induction flags with
  | nil => intro i; rfl
  | cons f rest ih =>
    intro i
    rw [List.enumFrom_cons]
    by_cases hf : f.Shorthand = "" ∧ f.Longhand = ""
    · simp only [synopsisLoop, if_pos hf, List.map_cons, List.foldr_cons, emitAt, ih (i + 1)]
      rw [str_empty_append]
    · simp only [synopsisLoop, if_neg hf, List.map_cons, List.foldr_cons, emitAt, ih (i + 1)]

/-- `C9` (amended): in the rendered synopsis, an emitted bracketed group
is followed by a newline plus `len("usage: <name>")` spaces exactly when
the zero-based position of its descriptor `i` in the full descriptor list
(placeholders included) satisfies `(i+1) % 4 = 0`. -/
theorem synopsisWrap_indexBased (name : String) (flags : List flagInfo) :
    usageSynopsis name flags = usageSynopsisAmended name flags := by
  unfold usageSynopsis usageSynopsisAmended
  rw [synopsisLoop_enumFrom]
  rfl

/-- `C5`: with more than one token and a first token naming a registered
flag set, `parse` delegates to that set on the tail; otherwise it parses
the full token list against the given set. -/
theorem parse_dispatch (g : GState) (q : Nat) (args : List String) :
    (∀ f : MFlagSet, 1 < args.length → mapLookup g.flagSets (args.getD 0 "") = some f →
      parse g q args = stdParse g f.std (args.drop 1)) ∧
    ((1 < args.length → mapLookup g.flagSets (args.getD 0 "") = none) →
      parse g q args = stdParse g (g.miniSets.getD q mZero).std args) := by
  constructor
  · intro f hlen hf
    unfold parse
    rw [if_pos hlen, hf]
  · intro hn
    unfold parse
    by_cases hlen : 1 < args.length
    · rw [if_pos hlen, hn hlen]
    · rw [if_neg hlen]

/-- C5 witness scenario: a top-level registry `main` and a registered
sub-registry `sub` that defines `-x`. -/
def gS0 : GState × Nat := NewFlagSet initState "main" .ContinueOnError

def gS1 : GState × Nat := NewFlagSet gS0.1 "sub" .ContinueOnError

def gS2 : GState × Nat := exOk (defineFlag gS1.1 gS1.2 "x" "" (.boolV false) "")

theorem parse_dispatch_witness :
    parse gS2.1 gS0.2 ["sub", "-x"] = stdParse gS2.1 1 ["-x"] :=
  (parse_dispatch gS2.1 gS0.2 ["sub", "-x"]).1 ⟨1, ⟨0, 0, 32⟩⟩ (by decide) (by decide)

lemma list_getD_set_self {α : Type} (l : List α) (i : Nat) (x d : α) (h : i < l.length) :
    (l.set i x).getD i d = x := by
  induction l generalizing i with
  | nil => simp at h
  | cons a rest ih =>
    cases i with
    | zero => rfl
    | succ n =>
      rw [List.set_cons_succ, List.getD_cons_succ]
      exact ih n (by simpa using h)

lemma take_set_append {α : Type} (a : List α) (n : Nat) (x : α) (h : n < a.length) :
    (a.set n x).take (n + 1) = a.take n ++ [x] := by
  induction a generalizing n with
  | nil => simp at h
  | cons c t ih =>
    cases n with
    | zero => rfl
    | succ m =>
      rw [List.set_cons_succ, List.take_succ_cons, List.take_succ_cons,
        ih m (by simpa using h)]
      rfl

lemma set_append_last {α : Type} (l : List α) (a b : α) :
    (l ++ [a]).set l.length b = l ++ [b] := by
  induction l with
  | nil => rfl
  | cons c t ih =>
    simp only [List.cons_append, List.length_cons, List.set_cons_succ, ih]

lemma formalLookup_append (l1 l2 : List StdFlag) (nm : String) :
    formalLookup (l1 ++ l2) nm =
      match formalLookup l1 nm with
      | some f => some f
      | none => formalLookup l2 nm := by
  induction l1 with
  | nil => rfl
  | cons f rest ih =>
    by_cases h : f.name = nm
    · simp [formalLookup, h]
    · simp [formalLookup, h, ih]

lemma formalLookup_mem (fl : List StdFlag) (nm : String) (f : StdFlag)
    (h : formalLookup fl nm = some f) : f ∈ fl ∧ f.name = nm := by
  induction fl with
  | nil => simp [formalLookup] at h
  | cons f0 rest ih =>
    by_cases h0 : f0.name = nm
    · rw [formalLookup, if_pos h0] at h
      injection h with h1
      subst h1
      exact ⟨List.mem_cons_self _ _, h0⟩
    · rw [formalLookup, if_neg h0] at h
      obtain ⟨hmem, hname⟩ := ih h
      exact ⟨List.mem_cons_of_mem _ hmem, hname⟩

lemma goAppend_fields (g : GState) (s : GoSlice) (x : flagInfo) :
    (goAppend g s x).1.cells = g.cells ∧ (goAppend g s x).1.stdSets = g.stdSets ∧
      (goAppend g s x).1.miniSets = g.miniSets ∧ (goAppend g s x).1.flagSets = g.flagSets := by
  unfold goAppend
  split <;> exact ⟨rfl, rfl, rfl, rfl⟩

lemma defineUsage_cells (g : GState) (q : Nat) (n s u : String) :
    (defineUsage g q n s u).cells = g.cells := by
  unfold defineUsage
  exact (goAppend_fields g _ _).1

lemma defineUsage_stdSets (g : GState) (q : Nat) (n s u : String) :
    (defineUsage g q n s u).stdSets = g.stdSets := by
  unfold defineUsage
  exact (goAppend_fields g _ _).2.1

lemma defineUsage_flagSets (g : GState) (q : Nat) (n s u : String) :
    (defineUsage g q n s u).flagSets = g.flagSets := by
  unfold defineUsage
  exact (goAppend_fields g _ _).2.2.2

lemma defineUsage_miniStd (g : GState) (q : Nat) (n s u : String) :
    ((defineUsage g q n s u).miniSets.getD q mZero).std
      = (g.miniSets.getD q mZero).std := by
  unfold defineUsage
  simp only []
  rw [(goAppend_fields g _ _).2.2.1]
  by_cases hq : q < g.miniSets.length
  · rw [list_getD_set_self _ _ _ _ hq]
  · rw [List.set_eq_of_length_le (by omega)]

lemma defineUsage_miniLen (g : GState) (q : Nat) (n s u : String) :
    (defineUsage g q n s u).miniSets.length = g.miniSets.length := by
  unfold defineUsage
  simp only []
  rw [(goAppend_fields g _ _).2.2.1, List.length_set]

lemma stdVar_ok_fields (g : GState) (p cell : Nat) (nm : String) (g' : GState)
    (h : stdVar g p cell nm = .ok g') :
    g'.cells = g.cells ∧ g'.arrays = g.arrays ∧ g'.miniSets = g.miniSets ∧
      g'.flagSets = g.flagSets ∧ g'.stdSets.length = g.stdSets.length := by
  unfold stdVar at h
  rcases hlk : formalLookup (g.stdSets.getD p sZero).formal nm with _ | f <;>
    simp only [hlk] at h
  · simp only [Except.ok.injEq] at h
    rw [← h]
    exact ⟨rfl, rfl, rfl, rfl, List.length_set _ _ _⟩
  · cases h

lemma stdVar_ok_stdSets (g : GState) (p cell : Nat) (nm : String) (g' : GState)
    (h : stdVar g p cell nm = .ok g') :
    g'.stdSets = g.stdSets.set p
        { g.stdSets.getD p sZero with
          formal := (g.stdSets.getD p sZero).formal ++ [⟨nm, cell⟩] } ∧
      formalLookup (g.stdSets.getD p sZero).formal nm = none := by
  unfold stdVar at h
  rcases hlk : formalLookup (g.stdSets.getD p sZero).formal nm with _ | f <;>
    simp only [hlk] at h
  · simp only [Except.ok.injEq] at h
    rw [← h]
    exact ⟨rfl, rfl⟩
  · cases h

lemma stdVar_ok_mem (g : GState) (p cell : Nat) (nm : String) (g' : GState)
    (h : stdVar g p cell nm = .ok g') :
    ∀ s' ∈ g'.stdSets, ∀ e ∈ s'.formal,
      (∃ s0 ∈ g.stdSets, e ∈ s0.formal) ∨ e = ⟨nm, cell⟩ := by
  intro s' hs' e he
  obtain ⟨hstd, -⟩ := stdVar_ok_stdSets g p cell nm g' h
  rw [hstd] at hs'
  rcases List.mem_or_eq_of_mem_set hs' with hold | hnew
  · exact .inl ⟨s', hold, he⟩
  · subst hnew
    simp only [] at he
    rcases (List.mem_append).mp he with hf | hx
    · by_cases hp : p < g.stdSets.length
      · refine .inl ⟨g.stdSets.getD p sZero, ?_, hf⟩
        rw [List.getD_eq_getElem _ _ hp]
        exact List.getElem_mem hp
      · rw [List.getD_eq_default _ _ (by omega)] at hf
        simp [sZero] at hf
    · exact .inr ((List.mem_singleton).mp hx)

lemma typedVar_ok_entries (g : GState) (q : Nat) (name sh : String) (w : FlagValue)
    (g' : GState) (c : Nat) (h : typedVar g q name sh w = .ok (g', c)) :
    c = g.cells.length ∧ g'.cells = g.cells ++ [w] ∧
      g'.arrays = g.arrays ∧ g'.miniSets = g.miniSets ∧
      ∀ s' ∈ g'.stdSets, ∀ e ∈ s'.formal,
        (∃ s0 ∈ g.stdSets, e ∈ s0.formal) ∨ e = ⟨name, c⟩ ∨ (sh ≠ "" ∧ e = ⟨sh, c⟩) := by
  simp only [typedVar] at h
  split at h
  · simp at h
  next g2 heq1 =>
    have hf1 := stdVar_ok_fields _ _ _ _ _ heq1
    have hm1 := stdVar_ok_mem _ _ _ _ _ heq1
    simp only [setCell] at hf1
    have hcell2 : g2.cells = g.cells ++ [w] := by
      rw [hf1.1]
      exact set_append_last _ _ _
    split at h
    next hsh =>
      simp only [Except.ok.injEq, Prod.mk.injEq] at h
      obtain ⟨h1, h2⟩ := h
      subst h1
      subst h2
      refine ⟨rfl, hcell2, hf1.2.1, hf1.2.2.1, ?_⟩
      intro s' hs' e he
      rcases hm1 s' hs' e he with hold | hnew
      · exact .inl hold
      · exact .inr (.inl hnew)
    next hsh =>
      split at h
      · simp at h
      next g3 heq2 =>
        have hf2 := stdVar_ok_fields _ _ _ _ _ heq2
        have hm2 := stdVar_ok_mem _ _ _ _ _ heq2
        simp only [setCell] at hf2
        simp only [Except.ok.injEq, Prod.mk.injEq] at h
        obtain ⟨h1, h2⟩ := h
        subst h1
        subst h2
        have hcell3 : g3.cells = g.cells ++ [w] := by
          rw [hf2.1, hcell2]
          exact set_append_last _ _ _
        refine ⟨rfl, hcell3, by rw [hf2.2.1, hf1.2.1], by rw [hf2.2.2.1, hf1.2.2.1], ?_⟩
        intro s' hs' e he
        rcases hm2 s' hs' e he with hin2 | hnew2
        · obtain ⟨s0, hs0, he0⟩ := hin2
          rcases hm1 s0 hs0 e he0 with hold | hnew1
          · exact .inl hold
          · exact .inr (.inl hnew1)
        · exact .inr (.inr ⟨hsh, hnew2⟩)

lemma typedVar_ok_formal (g : GState) (q : Nat) (name sh : String) (w : FlagValue)
    (g' : GState) (c : Nat)
    (hp : (g.miniSets.getD q mZero).std < g.stdSets.length)
    (h : typedVar g q name sh w = .ok (g', c)) :
    c = g.cells.length ∧
    g'.cells = g.cells ++ [w] ∧
    g'.miniSets = g.miniSets ∧
    g'.stdSets.length = g.stdSets.length ∧
    formalLookup (g.stdSets.getD (g.miniSets.getD q mZero).std sZero).formal name = none ∧
    (sh = "" →
      (g'.stdSets.getD (g.miniSets.getD q mZero).std sZero).formal
        = (g.stdSets.getD (g.miniSets.getD q mZero).std sZero).formal ++ [⟨name, c⟩]) ∧
    (sh ≠ "" →
      formalLookup ((g.stdSets.getD (g.miniSets.getD q mZero).std sZero).formal
          ++ [⟨name, c⟩]) sh = none ∧
      (g'.stdSets.getD (g.miniSets.getD q mZero).std sZero).formal
        = (g.stdSets.getD (g.miniSets.getD q mZero).std sZero).formal
            ++ [⟨name, c⟩] ++ [⟨sh, c⟩]) := by
  simp only [typedVar] at h
  split at h
  · simp at h
  next g2 heq1 =>
    have hf1 := stdVar_ok_fields _ _ _ _ _ heq1
    have hs1 := stdVar_ok_stdSets _ _ _ _ _ heq1
    simp only [setCell] at hf1 hs1
    have hcell2 : g2.cells = g.cells ++ [w] := by
      rw [hf1.1]
      exact set_append_last _ _ _
    have hform2 : (g2.stdSets.getD (g.miniSets.getD q mZero).std sZero).formal
        = (g.stdSets.getD (g.miniSets.getD q mZero).std sZero).formal
            ++ [⟨name, g.cells.length⟩] := by
      rw [hs1.1, list_getD_set_self _ _ _ _ hp]
    split at h
    next hsh =>
      simp only [Except.ok.injEq, Prod.mk.injEq] at h
      obtain ⟨h1, h2⟩ := h
      subst h1
      subst h2
      exact ⟨rfl, hcell2, hf1.2.2.1, hf1.2.2.2.2, hs1.2,
        fun _ => hform2, fun hne => absurd hsh hne⟩
    next hsh =>
      split at h
      · simp at h
      next g3 heq2 =>
        have hf2 := stdVar_ok_fields _ _ _ _ _ heq2
        have hs2 := stdVar_ok_stdSets _ _ _ _ _ heq2
        simp only [setCell] at hf2 hs2
        simp only [Except.ok.injEq, Prod.mk.injEq] at h
        obtain ⟨h1, h2⟩ := h
        subst h1
        subst h2
        have hcell3 : g3.cells = g.cells ++ [w] := by
          rw [hf2.1, hcell2]
          exact set_append_last _ _ _
        have hp2 : (g.miniSets.getD q mZero).std < g2.stdSets.length := by
          rw [hf1.2.2.2.2]
          exact hp
        have hlk2 : formalLookup
            ((g.stdSets.getD (g.miniSets.getD q mZero).std sZero).formal
              ++ [⟨name, g.cells.length⟩]) sh = none := by
          have := hs2.2
          rw [hform2] at this
          exact this
        have hform3 : (g3.stdSets.getD (g.miniSets.getD q mZero).std sZero).formal
            = (g.stdSets.getD (g.miniSets.getD q mZero).std sZero).formal
                ++ [⟨name, g.cells.length⟩] ++ [⟨sh, g.cells.length⟩] := by
          rw [hs2.1, list_getD_set_self _ _ _ _ hp2]
          simp only []
          rw [hform2]
        refine ⟨rfl, hcell3, ?_, ?_, hs1.2, fun hcontra => absurd hcontra hsh,
          fun _ => ⟨hlk2, hform3⟩⟩
        · rw [hf2.2.2.1, hf1.2.2.1]
        · rw [hf2.2.2.2.2, hf1.2.2.2.2]

lemma defineFlag_eq_typedVar (g : GState) (q : Nat) (name short : String) (v : FlagValue)
    (usage : String) :
    defineFlag g q name short v usage
      = typedVar (defineUsage g q name (if name = short then "" else short) usage) q name
          (if name = short then "" else short) v := by
  cases v <;> rfl

lemma get?_append_len {α : Type} (l : List α) (a : α) :
    (l ++ [a]).get? l.length = some a := by
  rw [List.get?_eq_getElem?]
  exact List.getElem?_concat_length l a

lemma getD_append_len {α : Type} (l : List α) (a d : α) :
    (l ++ [a]).getD l.length d = a := by
  rw [List.getD_eq_getElem?_getD, List.getElem?_concat_length]
  rfl

lemma formalLookup_single (nm : String) (c : Nat) :
    formalLookup [⟨nm, c⟩] nm = some ⟨nm, c⟩ := by
  simp [formalLookup]

instance {ε α : Type} [DecidableEq ε] [DecidableEq α] : DecidableEq (Except ε α) :=
  fun x y =>
    match x, y with
    | .error a, .error b =>
      if h : a = b then isTrue (congrArg Except.error h)
      else isFalse (fun hc => h (Except.error.inj hc))
    | .error _, .ok _ => isFalse (fun hc => Except.noConfusion hc)
    | .ok _, .error _ => isFalse (fun hc => Except.noConfusion hc)
    | .ok a, .ok b =>
      if h : a = b then isTrue (congrArg Except.ok h)
      else isFalse (fun hc => h (Except.ok.inj hc))

/-- Go std `Var` panics when the name is already registered: the failing
direction of `stdVar`. -/
lemma typedVar_fails (g : GState) (q : Nat) (name sh : String) (w : FlagValue) (f : StdFlag)
    (h : formalLookup
        (g.stdSets.getD (g.miniSets.getD q mZero).std sZero).formal name = some f) :
    ∃ e, typedVar g q name sh w = .error e := by
  refine ⟨.flagRedefined (g.stdSets.getD (g.miniSets.getD q mZero).std sZero).name name, ?_⟩
  simp only [typedVar, stdVar, setCell]
  simp only [h]

/-- `C6`: once a flag has been defined under identifier `name` in a
registry, a second definition call under the same identifier fails at
definition time with the redefinition panic of the underlying flag set —
whatever error-handling policy the registry has and whatever shorthand,
value or usage text the second call carries. -/
theorem defineTwice_fails (g : GState) (q : Nat) (name short usage : String) (v : FlagValue)
    (g' : GState) (c : Nat) (short2 usage2 : String) (v2 : FlagValue)
    (hp : (g.miniSets.getD q mZero).std < g.stdSets.length)
    (h1 : defineFlag g q name short v usage = .ok (g', c)) :
    ∃ e, defineFlag g' q name short2 v2 usage2 = .error e := by
  rw [defineFlag_eq_typedVar] at h1
  have hpU : ((defineUsage g q name (if name = short then "" else short) usage).miniSets.getD
        q mZero).std
      < (defineUsage g q name (if name = short then "" else short) usage).stdSets.length := by
    rw [defineUsage_miniStd, defineUsage_stdSets]
    exact hp
  have H := typedVar_ok_formal _ q name (if name = short then "" else short) v g' c hpU h1
  rw [defineUsage_miniStd, defineUsage_stdSets] at H
  have hsome : ∃ f, formalLookup
      ((g'.stdSets.getD (g.miniSets.getD q mZero).std sZero)).formal name = some f := by
    by_cases hcase : (if name = short then "" else short) = ""
    · rw [H.2.2.2.2.2.1 hcase, formalLookup_append, H.2.2.2.2.1, formalLookup_single]
      exact ⟨_, rfl⟩
    · rw [(H.2.2.2.2.2.2 hcase).2, formalLookup_append, formalLookup_append,
        H.2.2.2.2.1, formalLookup_single]
      exact ⟨_, rfl⟩
  obtain ⟨f, hf⟩ := hsome
  rw [defineFlag_eq_typedVar]
  apply typedVar_fails _ q name _ v2 f
  rw [defineUsage_miniStd, defineUsage_stdSets, H.2.2.1, defineUsage_miniStd]
  exact hf

/-- C6 witness scenario: defining `color` twice on one registry. -/
def gY0 : GState × Nat := NewFlagSet initState "dup" .PanicOnError

def gY1 : GState × Nat := exOk (defineFlag gY0.1 gY0.2 "color" "c" (.strV "red") "")

theorem defineTwice_fails_witness :
    ∃ e, defineFlag gY1.1 gY0.2 "color" "k" (.boolV true) "again" = .error e :=
  defineTwice_fails gY0.1 gY0.2 "color" "c" "" (.strV "red") gY1.1 gY1.2 "k" "again"
    (.boolV true) (by decide) (by decide)

/-- `C1` (amended): a flag defined with a non-empty long name and a
distinct non-empty shorthand binds BOTH identifiers to one shared
destination cell — the returned one — seeded with the default value, so an
assignment through either identifier is observed through both. -/
theorem sharedCell_amended (g : GState) (q : Nat) (name short usage : String) (v : FlagValue)
    (g' : GState) (c : Nat)
    (hp : (g.miniSets.getD q mZero).std < g.stdSets.length)
    (hne : name ≠ short) (hshort : short ≠ "")
    (hdef : defineFlag g q name short v usage = .ok (g', c)) :
    lookupDest g' q name = some c ∧ lookupDest g' q short = some c ∧
      g'.cells.getD c (.strV "") = v := by
  rw [defineFlag_eq_typedVar, if_neg hne] at hdef
  have hpU : ((defineUsage g q name short usage).miniSets.getD q mZero).std
      < (defineUsage g q name short usage).stdSets.length := by
    rw [defineUsage_miniStd, defineUsage_stdSets]
    exact hp
  have H := typedVar_ok_formal _ q name short v g' c hpU hdef
  rw [defineUsage_miniStd, defineUsage_stdSets, defineUsage_cells] at H
  obtain ⟨hlk2, hform⟩ := H.2.2.2.2.2.2 hshort
  have hstd' : (g'.miniSets.getD q mZero).std = (g.miniSets.getD q mZero).std := by
    rw [H.2.2.1, defineUsage_miniStd]
  refine ⟨?_, ?_, ?_⟩
  · unfold lookupDest
    rw [hstd', hform, formalLookup_append, formalLookup_append, H.2.2.2.2.1,
      formalLookup_single]
    rfl
  · unfold lookupDest
    rw [hstd', hform, formalLookup_append, hlk2, formalLookup_single]
    rfl
  · rw [H.2.1, H.1]
    exact getD_append_len _ _ _

theorem sharedCell_amended_witness :
    lookupDest gW1.1 gW0.2 "verbose" = some 0 ∧ lookupDest gW1.1 gW0.2 "v" = some 0 ∧
      gW1.1.cells.getD 0 (.strV "") = .boolV false :=
  sharedCell_amended gW0.1 gW0.2 "verbose" "v" "verbose flag" (.boolV false) gW1.1 gW1.2
    (by decide) (by decide) (by decide) (by decide)

/-- A well-formed slice header: its array exists, the backing array has
exactly `cap` slots, and the length is within capacity.  Slices built by
the library (from `initState` through `goAppend`) satisfy this. -/
def SliceOK (g : GState) (s : GoSlice) : Prop :=
  s.arr < g.arrays.length ∧ (g.arrays.getD s.arr []).length = s.cap ∧ s.len ≤ s.cap

instance (g : GState) (s : GoSlice) : Decidable (SliceOK g s) := by
  unfold SliceOK
  infer_instance

lemma goAppend_view (g : GState) (s : GoSlice) (x : flagInfo) (h : SliceOK g s) :
    sliceView (goAppend g s x).1 (goAppend g s x).2 = sliceView g s ++ [x] := by
  obtain ⟨h1, h2, h3⟩ := h
  unfold goAppend sliceView
  by_cases hc : s.len < s.cap
  · rw [if_pos hc]
    simp only []
    rw [list_getD_set_self _ _ _ _ h1]
    exact take_set_append _ _ _ (by omega)
  · rw [if_neg hc]
    simp only []
    rw [List.getD_append_right _ _ _ _ (Nat.le_refl _), Nat.sub_self, List.getD_cons_zero]
    have hlen : (g.arrays.getD s.arr []).length = s.len := by omega
    have htk : ((g.arrays.getD s.arr []).take s.len ++ [x]).length = s.len + 1 := by
      simp only [List.length_append, List.length_take, List.length_singleton]
      omega
    rw [List.take_left' htk]

lemma sliceView_arrays (g g' : GState) (s : GoSlice) (h : g'.arrays = g.arrays) :
    sliceView g' s = sliceView g s := by
  unfold sliceView
  rw [h]

lemma defineUsage_view (g : GState) (q : Nat) (n sh u : String)
    (hq : q < g.miniSets.length)
    (hs : SliceOK g (g.miniSets.getD q mZero).flags) :
    sliceView (defineUsage g q n sh u)
        ((defineUsage g q n sh u).miniSets.getD q mZero).flags
      = sliceView g (g.miniSets.getD q mZero).flags
        ++ [⟨if n.length = 1 then "" else n, if n.length = 1 then n else sh,
             extractUsageValue u, u⟩] := by
  unfold defineUsage
  simp only []
  have hmini := (goAppend_fields g (g.miniSets.getD q mZero).flags
    ⟨if n.length = 1 then "" else n, if n.length = 1 then n else sh,
     extractUsageValue u, u⟩).2.2.1
  rw [hmini, list_getD_set_self _ _ _ _ hq]
  exact goAppend_view g _ _ hs

/-- `C8`: a definition call whose name has length exactly 1 appends a
descriptor that is shorthand-only: its short field is the name, its long
field is empty, and any separately supplied shorthand is absent from the
descriptor. -/
theorem singleCharName_shortOnly (g : GState) (q : Nat) (name short usage : String)
    (v : FlagValue) (g' : GState) (c : Nat)
    (hlen : name.length = 1)
    (hq : q < g.miniSets.length)
    (hs : SliceOK g (g.miniSets.getD q mZero).flags)
    (hdef : defineFlag g q name short v usage = .ok (g', c)) :
    sliceView g' (g'.miniSets.getD q mZero).flags
      = sliceView g (g.miniSets.getD q mZero).flags
        ++ [⟨"", name, extractUsageValue usage, usage⟩] := by
  rw [defineFlag_eq_typedVar] at hdef
  have HE := typedVar_ok_entries _ q name _ v g' c hdef
  rw [sliceView_arrays (defineUsage g q name (if name = short then "" else short) usage) g' _
    HE.2.2.1, HE.2.2.2.1, defineUsage_view g q name _ usage hq hs, if_pos hlen, if_pos hlen]

/-- C8 witness scenario: a one-character name `z` with a distinct supplied
shorthand `y`. -/
def gZ0 : GState × Nat := NewFlagSet initState "short" .ContinueOnError

def gZ1 : GState × Nat := exOk (defineFlag gZ0.1 gZ0.2 "z" "y" (.strV "") "zed `int` flag")

theorem singleCharName_shortOnly_witness :
    sliceView gZ1.1 (gZ1.1.miniSets.getD 0 mZero).flags
      = sliceView gZ0.1 (gZ0.1.miniSets.getD 0 mZero).flags
        ++ [⟨"", "z", extractUsageValue "zed `int` flag", "zed `int` flag"⟩] :=
  singleCharName_shortOnly gZ0.1 gZ0.2 "z" "y" "zed `int` flag" (.strV "") gZ1.1 gZ1.2
    (by decide) (by decide) (by decide) (by decide)

lemma parseOne_cell_preserve (formal : List StdFlag) (prot : String → Prop)
    (c : Nat) (v : FlagValue) (cells : List FlagValue) (args : List String)
    (st' : PState) (r : StepResult)
    (h : parseOne formal ⟨cells, args⟩ = (st', r))
    (hc : cells.get? c = some v)
    (hent : ∀ e ∈ formal, e.cell = c → prot e.name)
    (htok : ∀ t ∈ args, ∀ nm, prot nm → tokenName t ≠ some nm) :
    st'.cells.get? c = some v ∧ ∀ t ∈ st'.args, t ∈ args := by
  rcases args with _ | ⟨s, rest⟩
  · simp only [parseOne] at h
    have h1 := congrArg Prod.fst h
    simp only [] at h1
    rw [← h1]
    exact ⟨hc, fun t ht => ht⟩
  · simp only [parseOne] at h
    rcases hcl : classifyToken s with _ | _ | _ | ⟨nm, value, hasV⟩ <;> simp only [hcl] at h
    · have h1 := congrArg Prod.fst h
      simp only [] at h1
      rw [← h1]
      exact ⟨hc, fun t ht => ht⟩
    · have h1 := congrArg Prod.fst h
      simp only [] at h1
      rw [← h1]
      exact ⟨hc, fun t ht => List.mem_cons_of_mem _ ht⟩
    · have h1 := congrArg Prod.fst h
      simp only [] at h1
      rw [← h1]
      exact ⟨hc, fun t ht => ht⟩
    · have htn : tokenName s = some nm := by
        unfold tokenName
        rw [hcl]
      rcases hlk : formalLookup formal nm with _ | f <;> simp only [hlk] at h
      · split at h <;>
        · have h1 := congrArg Prod.fst h
          simp only [] at h1
          rw [← h1]
          exact ⟨hc, fun t ht => List.mem_cons_of_mem _ ht⟩
      · obtain ⟨hfm, hfname⟩ := formalLookup_mem formal nm f hlk
        have hcne : f.cell ≠ c := by
          intro hceq
          have hprot := hent f hfm hceq
          rw [hfname] at hprot
          exact htok s (List.mem_cons_self _ _) nm hprot htn
        have hget : ∀ (x : FlagValue), (cells.set f.cell x).get? c = some v := by
          intro x
          rw [List.get?_set_ne x cells hcne]
          exact hc
        split at h
        · split at h
          · rcases hpb : parseBool value with _ | b <;> simp only [hpb] at h
            · have h1 := congrArg Prod.fst h
              simp only [] at h1
              rw [← h1]
              exact ⟨hc, fun t ht => List.mem_cons_of_mem _ ht⟩
            · have h1 := congrArg Prod.fst h
              simp only [] at h1
              rw [← h1]
              exact ⟨hget _, fun t ht => List.mem_cons_of_mem _ ht⟩
          · have h1 := congrArg Prod.fst h
            simp only [] at h1
            rw [← h1]
            exact ⟨hget _, fun t ht => List.mem_cons_of_mem _ ht⟩
        · split at h
          · have h1 := congrArg Prod.fst h
            simp only [] at h1
            rw [← h1]
            exact ⟨hget _, fun t ht => List.mem_cons_of_mem _ ht⟩
          · rcases rest with _ | ⟨v2, rest2⟩ <;> simp only [] at h
            · have h1 := congrArg Prod.fst h
              simp only [] at h1
              rw [← h1]
              exact ⟨hc, fun t ht => absurd ht (List.not_mem_nil t)⟩
            · have h1 := congrArg Prod.fst h
              simp only [] at h1
              rw [← h1]
              exact ⟨hget _,
                fun t ht => List.mem_cons_of_mem _ (List.mem_cons_of_mem _ ht)⟩

lemma parseLoopF_cell_preserve (formal : List StdFlag) (eh : ErrorHandling)
    (prot : String → Prop) (c : Nat) (v : FlagValue)
    (hent : ∀ e ∈ formal, e.cell = c → prot e.name) :
    ∀ (fuel : Nat) (st : PState),
    st.cells.get? c = some v →
    (∀ t ∈ st.args, ∀ nm, prot nm → tokenName t ≠ some nm) →
    ((parseLoopF formal eh fuel st).1).cells.get? c = some v := by
  intro fuel
  induction fuel with
  | zero => intro st hc _; exact hc
  | succ n ih =>
    intro st hc htok
    simp only [parseLoopF]
    rcases hp : parseOne formal st with ⟨st', r⟩
    obtain ⟨hc', hsub⟩ :=
      parseOne_cell_preserve formal prot c v st.cells st.args st' r hp hc hent htok
    have htok' : ∀ t ∈ st'.args, ∀ nm, prot nm → tokenName t ≠ some nm :=
      fun t ht => htok t (hsub t ht)
    cases r with
    | stop => exact hc'
    | fail e => cases eh <;> exact hc'
    | seen => exact ih st' hc' htok'

lemma stdParse_cell_preserve (g : GState) (P : Nat) (args' : List String)
    (prot : String → Prop) (c : Nat) (v : FlagValue)
    (hc : g.cells.get? c = some v)
    (hent : ∀ s' ∈ g.stdSets, ∀ e ∈ s'.formal, e.cell = c → prot e.name)
    (htok : ∀ t ∈ args', ∀ nm, prot nm → tokenName t ≠ some nm) :
    ((stdParse g P args').1).cells.get? c = some v := by
  have hent' : ∀ e ∈ (g.stdSets.getD P sZero).formal, e.cell = c → prot e.name := by
    intro e he
    by_cases hP : P < g.stdSets.length
    · refine hent (g.stdSets.getD P sZero) ?_ e he
      rw [List.getD_eq_getElem _ _ hP]
      exact List.getElem_mem hP
    · rw [List.getD_eq_default _ _ (by omega)] at he
      simp [sZero] at he
  unfold stdParse parseLoop
  exact parseLoopF_cell_preserve _ _ prot c v hent' _ ⟨g.cells, args'⟩ hc htok

/-- Every registered binding routes into an existing destination cell.
This holds in every state the library can reach and is preserved by all
operations; it rules out dangling cell references in arbitrary states. -/
def CellsBounded (g : GState) : Prop :=
  ∀ s ∈ g.stdSets, ∀ e ∈ s.formal, e.cell < g.cells.length

instance (g : GState) : Decidable (CellsBounded g) := by
  unfold CellsBounded
  infer_instance

/-- `C7`: after defining a flag with default `v`, parsing any token list
that contains no token referring to the flag — no flag marker whose
identifier is the long name or the shorthand — leaves the bound
destination holding `v`, whatever the parse outcome. -/
theorem absentFlag_keepsDefault (g : GState) (q : Nat) (name short usage : String)
    (v : FlagValue) (tokens : List String) (g' : GState) (c : Nat)
    (hWF : CellsBounded g)
    (hdef : defineFlag g q name short v usage = .ok (g', c))
    (htok : ∀ t ∈ tokens, tokenName t ≠ some name ∧ tokenName t ≠ some short) :
    ((parse g' q tokens).1).cells.get? c = some v := by
  rw [defineFlag_eq_typedVar] at hdef
  have HE := typedVar_ok_entries _ q name _ v g' c hdef
  rw [defineUsage_cells] at HE
  have hc : g'.cells.get? c = some v := by
    rw [HE.2.1, HE.1]
    exact get?_append_len _ _
  have hcl : c = g.cells.length := HE.1
  have hent : ∀ s' ∈ g'.stdSets, ∀ e ∈ s'.formal, e.cell = c →
      (e.name = name ∨ e.name = short) := by
    intro s' hs' e he hec
    rcases HE.2.2.2.2 s' hs' e he with hold | hnew | hnew2
    · obtain ⟨s0, hs0, he0⟩ := hold
      rw [defineUsage_stdSets] at hs0
      have := hWF s0 hs0 e he0
      omega
    · rw [hnew]
      exact .inl rfl
    · obtain ⟨hshne, hnew2⟩ := hnew2
      rw [hnew2]
      by_cases hns : name = short
      · rw [if_pos hns] at hshne
        exact absurd rfl hshne
      · rw [if_neg hns]
        exact .inr rfl
  have htok' : ∀ t ∈ tokens, ∀ nm, (nm = name ∨ nm = short) → tokenName t ≠ some nm := by
    intro t ht nm hnm
    rcases hnm with h1 | h2
    · rw [h1]
      exact (htok t ht).1
    · rw [h2]
      exact (htok t ht).2
  unfold parse
  by_cases hlen : 1 < tokens.length
  · rw [if_pos hlen]
    rcases hlook : mapLookup g'.flagSets (tokens.getD 0 "") with _ | f <;>
      simp only [hlook]
    · exact stdParse_cell_preserve g' _ tokens _ c v hc hent htok'
    · exact stdParse_cell_preserve g' f.std (tokens.drop 1) _ c v hc hent
        (fun t ht => htok' t (List.mem_of_mem_drop ht))
  · rw [if_neg hlen]
    exact stdParse_cell_preserve g' _ tokens _ c v hc hent htok'

/-- C7 witness scenario: a string flag `file`/`f` with default `out`,
parsed against tokens that never mention it. -/
def gX0 : GState × Nat := NewFlagSet initState "keep" .ContinueOnError

def gX1 : GState × Nat := exOk (defineFlag gX0.1 gX0.2 "file" "f" (.strV "out") "file flag")

theorem absentFlag_keepsDefault_witness :
    ((parse gX1.1 gX0.2 ["hello", "-other", "world"]).1).cells.get? gX1.2
      = some (.strV "out") :=
  absentFlag_keepsDefault gX0.1 gX0.2 "file" "f" "file flag" (.strV "out")
    ["hello", "-other", "world"] gX1.1 gX1.2 (by decide) (by decide) (by decide)

end Miniflag
